import Mathlib

/-!
Verification of the Markup-to-Document Rendering Pipeline of
`src/client/src/Dashboard.jsx` (functions `generatePDF`, `parseAndPrintText`,
`downloadPDF`, `downloadDOCX`).

Text is modelled as `List Char` (`String.data`). The JS split
`text.split(/(\*.*?\*)/)` (capture group kept) is modelled in two steps:
`splitOnChar '*'` cuts the line at every asterisk, and `starTokens` re-glues
the pieces exactly as the non-greedy regex pairs consecutive asterisks
left-to-right, leaving a final unmatched asterisk (odd count) literal in the
tail token. Lines are assumed free of carriage returns and other Unicode line
terminators, which JS `.` would refuse to match.
-/

/-- Run of styled text as produced for one draw command: the token's text
after the bold branch may strip asterisks, plus the bold flag. -/
structure Run where
  text : List Char
  bold : Bool
deriving DecidableEq, Repr

/-- Model of JS `word.startsWith("*")`. -/
def startsWithStar (l : List Char) : Bool :=
  l.head? == some '*'

/-- Model of JS `word.endsWith("*")`. -/
def endsWithStar (l : List Char) : Bool :=
  l.getLast? == some '*'

/-- Body of the `forEach` in `parseAndPrintText`: a token that starts and ends
with the delimiter becomes bold with every asterisk removed
(`word.replace(/\*/g, "")`); any other token is drawn verbatim, non-bold. -/
def mkRun (tok : List Char) : Run :=
  if startsWithStar tok && endsWithStar tok then
    ⟨tok.filter (· != '*'), true⟩
  else
    ⟨tok, false⟩

/-- Split a character list at every occurrence of `c`, keeping empty pieces,
exactly like JS `String.prototype.split` on a single-character separator. -/
def splitOnChar (c : Char) : List Char → List (List Char)
  | [] => [[]]
  | a :: rest =>
    if a = c then [] :: splitOnChar c rest
    else
      match splitOnChar c rest with
      | [] => [[a]]
      | s :: ss => (a :: s) :: ss

theorem splitOnChar_ne_nil (c : Char) (l : List Char) : splitOnChar c l ≠ [] := by
  cases l with
  | nil => simp [splitOnChar]
  | cons a rest =>
    by_cases h : a = c
    · simp [splitOnChar, h]
    · cases hr : splitOnChar c rest with
      | nil => simp [splitOnChar, h, hr]
      | cons x xs => simp [splitOnChar, h, hr]

/-- Joining the pieces recovers the input with every separator removed. -/
theorem join_splitOnChar (c : Char) (l : List Char) :
    (splitOnChar c l).flatten = l.filter (· != c) := by
  induction l with
  | nil => simp [splitOnChar]
  | cons a rest ih =>
    by_cases h : a = c
    · subst h
      simp [splitOnChar, ih, List.filter_cons]
    · have hne : (a != c) = true := bne_iff_ne.mpr h
      cases hr : splitOnChar c rest with
      | nil => exact absurd hr (splitOnChar_ne_nil c rest)
      | cons x xs =>
        rw [hr] at ih
        simp only [splitOnChar, if_neg h, hr, List.flatten_cons, List.filter_cons,
          hne, List.cons_append]
        simp only [List.flatten_cons] at ih
        simp [ih]

/-- No piece produced by `splitOnChar c` contains the separator. -/
theorem not_mem_of_mem_splitOnChar (c : Char) (l : List Char) :
    ∀ s ∈ splitOnChar c l, c ∉ s := by
  induction l with
  | nil =>
    intro s hs
    simp [splitOnChar] at hs
    simp [hs]
  | cons a rest ih =>
    intro s hs
    by_cases h : a = c
    · simp only [splitOnChar, if_pos h, List.mem_cons] at hs
      rcases hs with rfl | hs
      · simp
      · exact ih s hs
    · cases hr : splitOnChar c rest with
      | nil => exact absurd hr (splitOnChar_ne_nil c rest)
      | cons x xs =>
        have ihx : c ∉ x := ih x (by rw [hr]; exact List.mem_cons_self x xs)
        simp only [splitOnChar, if_neg h, hr, List.mem_cons] at hs
        rcases hs with rfl | hs
        · intro hmem
          rcases List.mem_cons.mp hmem with h1 | h1
          · exact h h1.symm
          · exact ihx h1
        · exact ih s (by rw [hr]; exact List.mem_cons_of_mem x hs)

/-- The number of pieces is one more than the number of separators. -/
theorem length_splitOnChar (c : Char) (l : List Char) :
    (splitOnChar c l).length = l.count c + 1 := by
  induction l with
  | nil => simp [splitOnChar]
  | cons a rest ih =>
    by_cases h : a = c
    · subst h
      simp [splitOnChar, ih, List.count_cons]
    · cases hr : splitOnChar c rest with
      | nil => exact absurd hr (splitOnChar_ne_nil c rest)
      | cons x xs =>
        rw [hr] at ih
        simp only [splitOnChar, if_neg h, hr, List.length_cons, List.count_cons]
        simp only [List.length_cons] at ih
        simp [h, ih]

/-- Re-glue the asterisk-cut pieces into the token list produced by the JS
split `text.split(/(\*.*?\*)/)`: the non-greedy regex pairs consecutive
asterisks left-to-right, so pieces are emitted alternately as plain text and
as `*piece*` capture tokens; a final unmatched asterisk (odd asterisk count)
stays literal inside the tail token. -/
def starTokens : List (List Char) → List (List Char)
  | [] => []
  | [s] => [s]
  | [s, t] => [s ++ '*' :: t]
  | s :: t :: u :: rest => s :: ('*' :: t ++ ['*']) :: starTokens (u :: rest)

/-- Runs emitted by `parseAndPrintText` for one input line: split on the
bold-delimiter regex, then classify each token. -/
def pdfRuns (line : List Char) : List Run :=
  (starTokens (splitOnChar '*' line)).map mkRun

theorem mkRun_of_star_free (s : List Char) (hfree : '*' ∉ s) :
    mkRun s = ⟨s, false⟩ := by
  have : startsWithStar s = false := by
    cases s with
    | nil => rfl
    | cons a rest =>
      have : a ≠ '*' := fun h => hfree (h ▸ List.mem_cons_self a rest)
      simp [startsWithStar, this]
  simp [mkRun, this]

theorem mkRun_of_matched (t : List Char) (hfree : '*' ∉ t) :
    mkRun ('*' :: (t ++ ['*'])) = ⟨t, true⟩ := by
  have ht : t.filter (· != '*') = t :=
    List.filter_eq_self.mpr fun a ha => bne_iff_ne.mpr (fun h => hfree (h ▸ ha))
  have hend : endsWithStar ('*' :: (t ++ ['*'])) = true := by
    unfold endsWithStar
    rw [← List.cons_append, List.getLast?_concat]
    rfl
  simp [mkRun, startsWithStar, hend, List.filter_cons, List.filter_append, ht]

/-- With an odd number of pieces (an even number of asterisks) every token is
either plain text or a fully matched `*piece*`, so the concatenated run texts
restore the line minus its delimiters and contain no delimiter. -/
theorem starTokens_even :
    ∀ segs : List (List Char), (∀ s ∈ segs, '*' ∉ s) → segs.length % 2 = 1 →
      (((starTokens segs).map (fun t => (mkRun t).text)).flatten = segs.flatten)
      ∧ ∀ t ∈ starTokens segs, '*' ∉ (mkRun t).text
  | [], _, hodd => by simp at hodd
  | [s], hfree, _ => by
    have hs : '*' ∉ s := hfree s (List.mem_cons_self s [])
    constructor
    · simp [starTokens, mkRun_of_star_free s hs]
    · intro t ht
      simp [starTokens] at ht
      subst ht
      simpa [mkRun_of_star_free t hs] using hs
  | [s, t], _, hodd => by simp at hodd
  | s :: t :: u :: rest, hfree, hodd => by
    have hs : '*' ∉ s := hfree s (by simp)
    have ht : '*' ∉ t := hfree t (by simp)
    have hrecfree : ∀ x ∈ u :: rest, '*' ∉ x := fun x hx => hfree x (by simp [hx])
    have hreclen : (u :: rest).length % 2 = 1 := by
      simp only [List.length_cons] at hodd ⊢
      omega
    have ih := starTokens_even (u :: rest) hrecfree hreclen
    constructor
    · simp [starTokens, mkRun_of_star_free s hs, mkRun_of_matched t ht, ih.1]
    · intro x hx
      simp only [starTokens, List.mem_cons] at hx
      rcases hx with rfl | rfl | hx
      · simpa [mkRun_of_star_free x hs] using hs
      · simpa [mkRun_of_matched t ht] using ht
      · exact ih.2 x hx

/-- Page geometry of the pagination loop in `generatePDF`. The code hard-wires
`startY = 80` (first content line of page 0), `resetY = 20` (cursor after
`doc.addPage()`), `pageHeight = 297` (jsPDF A4 height in mm, 297.00008; the
cursor only takes integer values so the comparison `y > pageHeight - 20`
agrees with the rounded value), `marginBottom = 20` and `lineHeight = 7`. -/
structure Geom where
  startY : Int
  resetY : Int
  pageHeight : Int
  marginBottom : Int
  lineHeight : Int
deriving DecidableEq, Repr

/-- Geometry constants hard-coded in `generatePDF`. -/
def codeGeom : Geom := ⟨80, 20, 297, 20, 7⟩

/-- Validity condition from the spec's PageGeometry invariant: positive line
height and positive usable page height below the header/top margin. -/
def Geom.Valid (g : Geom) : Prop :=
  0 < g.lineHeight ∧ 0 < g.pageHeight - g.marginBottom - g.startY ∧
    0 < g.pageHeight - g.marginBottom - g.resetY

instance (g : Geom) : Decidable g.Valid :=
  inferInstanceAs (Decidable (_ ∧ _ ∧ _))

/-- State of the pagination loop: closed pages, the open page, the cursor. -/
structure PagState where
  pages : List (List (Int × List Char))
  cur : List (Int × List Char)
  y : Int

/-- One iteration of `lines.forEach` in `generatePDF`: on overflow
(`y > pageHeight - 20`) close the page and restart the cursor at `resetY`;
then place the line at the cursor and advance by `lineHeight`. -/
def pagStep (g : Geom) (st : PagState) (line : List Char) : PagState :=
  if st.y > g.pageHeight - g.marginBottom then
    ⟨st.pages ++ [st.cur], [(g.resetY, line)], g.resetY + g.lineHeight⟩
  else
    ⟨st.pages, st.cur ++ [(st.y, line)], st.y + g.lineHeight⟩

/-- Pagination of `generatePDF`: fold the loop body over the document lines
starting from one open empty page with the cursor at `startY`, then close the
final page. -/
def paginate (g : Geom) (ls : List (List Char)) : List (List (Int × List Char)) :=
  let st := ls.foldl (pagStep g) ⟨[], [], g.startY⟩
  st.pages ++ [st.cur]

theorem paginate_ne_nil (g : Geom) (ls : List (List Char)) : paginate g ls ≠ [] := by
  simp [paginate]

/-- Loop invariant: the lines accumulated over closed pages plus the open page
are the initial ones followed by the processed lines, in order, each placed
exactly once. -/
theorem pag_foldl_snd (g : Geom) (ls : List (List Char)) :
    ∀ st : PagState,
      ((ls.foldl (pagStep g) st).pages.flatten ++ (ls.foldl (pagStep g) st).cur).map
          Prod.snd
        = (st.pages.flatten ++ st.cur).map Prod.snd ++ ls := by
  induction ls with
  | nil => intro st; simp
  | cons l ls ih =>
    intro st
    rw [List.foldl_cons, ih]
    by_cases h : st.y > g.pageHeight - g.marginBottom
    · simp [pagStep, h]
    · simp [pagStep, h]

/-- Caller-supplied header metadata: company name, report type and the
formatted generation date (`new Date().toLocaleDateString()`). -/
structure Meta where
  company : List Char
  reportType : List Char
  date : List Char
deriving DecidableEq, Repr

/-- Title string drawn on every page and in the flow output. -/
def titleText : List Char := "FINANCIAL REPORT".data

/-- Header draw commands `(x, y, text)` of page 0 of `generatePDF`: title at
(20,20), company at (20,40), report type at (20,50), date at (20,60). -/
def headerCmds0 (m : Meta) : List (Int × Int × List Char) :=
  [(20, 20, titleText),
   (20, 40, "Company: ".data ++ m.company),
   (20, 50, "Report Type: ".data ++ m.reportType),
   (20, 60, "Generated on: ".data ++ m.date)]

/-- The single header draw command repeated after each `doc.addPage()`. -/
def titleCmd : Int × Int × List Char := (20, 20, titleText)

/-- One rendered PDF page: its header draw commands and its positioned
content lines (cursor position, raw line text). -/
structure PDFPage where
  header : List (Int × Int × List Char)
  lines : List (Int × List Char)
deriving DecidableEq, Repr

/-- Page structure produced by `generatePDF`: split the report on newlines,
paginate with the hard-coded geometry; the initial page carries the full
metadata header, every page opened by `doc.addPage()` repeats only the title
line. -/
def generatePDFPages (m : Meta) (raw : List Char) : List PDFPage :=
  match paginate codeGeom (splitOnChar '\n' raw) with
  | [] => []
  | p :: ps => ⟨headerCmds0 m, p⟩ :: ps.map (fun q => ⟨[titleCmd], q⟩)

/-- One `doc.text` drawing instruction for content text. -/
structure DrawCmd where
  x : Int
  y : Int
  text : List Char
  bold : Bool
deriving DecidableEq, Repr

/-- Draw commands of `parseAndPrintText(text, x0, y)`: walk the runs left to
right, emitting each at the current x and advancing by the measured width of
the (possibly stripped) text under the active font plus 2. The width function
`w` abstracts `doc.getTextWidth` under the active bold/normal font. -/
def drawLine (w : List Char → Bool → Int) (line : List Char) (x0 y : Int) :
    List DrawCmd :=
  ((pdfRuns line).foldl
    (fun (acc : List DrawCmd × Int) r =>
      (acc.1 ++ [⟨acc.2, y, r.text, r.bold⟩], acc.2 + w r.text r.bold + 2))
    ([], x0)).1

/-- Content draw commands of one page: each positioned line is printed by
`parseAndPrintText(line, 20, y)`. -/
def pageContentCmds (w : List Char → Bool → Int) (p : PDFPage) : List DrawCmd :=
  (p.lines.map (fun yl => drawLine w yl.2 20 yl.1)).flatten

/-- Paragraph of the flow (DOCX) output: a list of text runs. -/
structure Para where
  runs : List Run
deriving DecidableEq, Repr

/-- Metadata paragraphs prepended by `downloadDOCX`, each a single bold run. -/
def metaParas (m : Meta) : List Para :=
  [⟨[⟨"FINANCIAL REPORT".data, true⟩]⟩,
   ⟨[⟨"Company: ".data ++ m.company, true⟩]⟩,
   ⟨[⟨"Report Type: ".data ++ m.reportType, true⟩]⟩,
   ⟨[⟨"Generated on: ".data ++ m.date, true⟩]⟩]

/-- Content paragraph `downloadDOCX` builds for one report line: a single
`TextRun` whose text is the line with every asterisk removed
(`line.replace(/\*/g, "")`) and whose bold flag is `line.startsWith("*")`. -/
def lineFlowPara (l : List Char) : Para :=
  ⟨[⟨l.filter (· != '*'), startsWithStar l⟩]⟩

/-- Content paragraphs of the flow output: one per report line. -/
def contentParas (raw : List Char) : List Para :=
  (splitOnChar '\n' raw).map lineFlowPara

/-- File-save request produced by `downloadDOCX`. -/
structure DocxSave where
  paras : List Para
  filename : List Char
deriving DecidableEq, Repr

/-- Export handler `downloadDOCX`: `if (!report) return` — a missing (null)
or empty report produces no document and no save; otherwise the flow document
is built and handed to the file-save collaborator. -/
def downloadDOCX (m : Meta) (report : Option (List Char)) : Option DocxSave :=
  match report with
  | none => none
  | some r =>
    if r = [] then none
    else some ⟨metaParas m ++ contentParas r, m.company ++ "-financial-report.docx".data⟩

/-- File-save request produced by `downloadPDF`. -/
structure PdfSave where
  doc : List PDFPage
  filename : List Char
deriving DecidableEq, Repr

/-- Export handler `downloadPDF`: `if (pdf) pdf.save(...)` — with no generated
PDF nothing happens; otherwise the stored document is saved. -/
def downloadPDF (company : List Char) (pdf : Option (List PDFPage)) : Option PdfSave :=
  match pdf with
  | none => none
  | some d => some ⟨d, company ++ "-financial-report.pdf".data⟩

/-- Concrete metadata used in counterexamples. -/
def cexMeta : Meta := ⟨"Acme".data, "Quarterly".data, "1/1/2026".data⟩

/-- A 30-line report: 29 lines fill page 0 (cursor 80, 87, …, 276; the next
step 283 exceeds 277), the 30th line opens page 1. -/
def cexRaw : List Char := (String.intercalate "\n" (List.replicate 30 "x")).data

/-- Every geometry paginates losslessly: the positioned lines across all
pages, in page order, are exactly the input lines. -/
theorem paginate_lines (g : Geom) (ls : List (List Char)) :
    (paginate g ls).flatten.map Prod.snd = ls := by
  have h := pag_foldl_snd g ls ⟨[], [], g.startY⟩
  simpa [paginate] using h

/-- C1 (amended). Content preservation holds unconditionally for the flow
output and, for the PDF output, for every line with an even number of bold
delimiters: the concatenated run texts are the line with all asterisks
removed and no run text contains an asterisk. (On a line with an odd
delimiter count the PDF output can violate both parts — see the
counterexample `*Revenue Up` — though not on every such line: on `*a**` the
lone tail token `*` is itself stripped.) -/
theorem c1_content_preservation_amended (line : List Char) :
    (((lineFlowPara line).runs.map Run.text).flatten = line.filter (· != '*')
      ∧ ∀ r ∈ (lineFlowPara line).runs, '*' ∉ r.text)
    ∧ ((line.count '*') % 2 = 0 →
        ((pdfRuns line).map Run.text).flatten = line.filter (· != '*')
          ∧ ∀ r ∈ pdfRuns line, '*' ∉ r.text) := by
  constructor
  · constructor
    · simp [lineFlowPara]
    · intro r hr
      simp only [lineFlowPara, List.mem_singleton] at hr
      subst hr
      simp [List.mem_filter]
  · intro heven
    have hfree := not_mem_of_mem_splitOnChar '*' line
    have hlen : (splitOnChar '*' line).length % 2 = 1 := by
      rw [length_splitOnChar]
      omega
    have h := starTokens_even (splitOnChar '*' line) hfree hlen
    constructor
    · calc ((pdfRuns line).map Run.text).flatten
          = ((starTokens (splitOnChar '*' line)).map
              (fun t => (mkRun t).text)).flatten := by
            simp only [pdfRuns, List.map_map]
            rfl
        _ = (splitOnChar '*' line).flatten := h.1
        _ = line.filter (· != '*') := join_splitOnChar '*' line
    · intro r hr
      simp only [pdfRuns, List.mem_map] at hr
      obtain ⟨t, ht, rfl⟩ := hr
      exact h.2 t ht

/-- C1 witness: a concrete line with an even delimiter count where the PDF
run texts concatenate to the delimiter-stripped line. -/
theorem c1_content_preservation_witness :
    ("a *b* c".data.count '*') % 2 = 0
    ∧ ((pdfRuns "a *b* c".data).map Run.text).flatten
        = "a *b* c".data.filter (· != '*') :=
  ⟨by decide, ((c1_content_preservation_amended "a *b* c".data).2 (by decide)).1⟩

/-- C1 counterexample: on the line `*Revenue Up` (odd delimiter count) the
PDF run texts contain the delimiter and do not concatenate to the stripped
line, refuting the claim for the PDF output. -/
theorem c1_content_preservation_cex :
    (∃ r ∈ pdfRuns "*Revenue Up".data, '*' ∈ r.text)
    ∧ ((pdfRuns "*Revenue Up".data).map Run.text).flatten
        ≠ "*Revenue Up".data.filter (· != '*') := by decide

/-- C2 counterexample: the PDF output of `*Revenue Up` is not a single bold
run `Revenue Up`: the token neither starts-and-ends with `*`, so
`parseAndPrintText` draws it verbatim and non-bold. -/
theorem c2_unmatched_delimiter_cex :
    pdfRuns "*Revenue Up".data ≠ [⟨"Revenue Up".data, true⟩] := by decide

/-- C2 (amended). The two outputs disagree on `*Revenue Up`: the flow output
closes the unterminated span implicitly (one bold run `Revenue Up`); the PDF
output emits one non-bold run with the literal text `*Revenue Up` — the
trailing text is not dropped but the delimiter is kept and no bold applied. -/
theorem c2_unmatched_delimiter_amended :
    pdfRuns "*Revenue Up".data = [⟨"*Revenue Up".data, false⟩]
    ∧ contentParas "*Revenue Up".data = [⟨[⟨"Revenue Up".data, true⟩]⟩] := by decide

/-- C3. Round-trip line count and order: for every document and valid
geometry the positioned lines across all pages are exactly the input lines in
order (so counts agree and no line is split or duplicated). -/
theorem c3_roundtrip (g : Geom) (ls : List (List Char)) (_hg : g.Valid) :
    (paginate g ls).flatten.map Prod.snd = ls
    ∧ (paginate g ls).flatten.length = ls.length := by
  refine ⟨paginate_lines g ls, ?_⟩
  conv_rhs => rw [← paginate_lines g ls]
  rw [List.length_map]

/-- C3 witness at the code's own geometry and a two-line document. -/
theorem c3_roundtrip_witness :
    codeGeom.Valid
    ∧ (paginate codeGeom ["a".data, "b".data]).flatten.map Prod.snd
        = ["a".data, "b".data] :=
  ⟨by decide, (c3_roundtrip codeGeom ["a".data, "b".data] (by decide)).1⟩

/-- C4 counterexample: the line `a *b*` parses into runs with differing bold
flags, yet its flow paragraph carries a single run (one line-level bold flag,
here false), so the parsed runs are not copied verbatim and the paragraph has
no differing bold flags. -/
theorem c4_flow_structure_cex :
    contentParas "a *b*".data = [⟨[⟨"a b".data, false⟩]⟩]
    ∧ pdfRuns "a *b*".data
        = [⟨"a ".data, false⟩, ⟨"b".data, true⟩, ⟨[], false⟩]
    ∧ (contentParas "a *b*".data).map (fun p => p.runs.length) = [1]
    ∧ (contentParas "a *b*".data).map Para.runs ≠ [pdfRuns "a *b*".data] := by decide

/-- C4 (amended). The flow renderer emits exactly one ParagraphNode per input
line, but each paragraph carries a single run: its text is the whole line
with every delimiter removed, and one line-level bold flag — true iff the
line starts with the delimiter. Per-run bold structure inside a line is not
preserved. -/
theorem c4_flow_structure_amended (raw : List Char) :
    (contentParas raw).length = (splitOnChar '\n' raw).length
    ∧ (contentParas raw).map (fun p => (p.runs.map Run.text).flatten)
        = (splitOnChar '\n' raw).map (fun l => l.filter (· != '*'))
    ∧ (contentParas raw).map (fun p => p.runs.map Run.bold)
        = (splitOnChar '\n' raw).map (fun l => [startsWithStar l])
    ∧ (contentParas raw).all (fun p => p.runs.length == 1) = true := by
  refine ⟨by simp [contentParas], ?_, ?_, ?_⟩ <;>
  · unfold contentParas
    induction splitOnChar '\n' raw with
    | nil => simp
    | cons l ls ih => simp [lineFlowPara, ih]

set_option maxRecDepth 8000 in
/-- C5 (code bug). On a 30-line report the 30th line opens page 1 and is
placed at cursor 20 — not the page-0 start 80 — which is exactly the y
position of the repeated header command on that page, so the first content
line of every overflow page is drawn inside the header region. -/
theorem c5_cursor_reset_bug :
    (generatePDFPages cexMeta cexRaw)[1]?
      = some ⟨[(20, 20, titleText)], [((20 : Int), ['x'])]⟩
    ∧ ((20 : Int) ≠ 80) := by decide

set_option maxRecDepth 8000 in
/-- C6 counterexample: on a two-page document the second page's header is the
bare title command, different from the first page's four metadata commands
and from the flow output's four metadata paragraph texts. -/
theorem c6_metadata_cex :
    ((generatePDFPages cexMeta cexRaw).map PDFPage.header)[1]? = some [titleCmd]
    ∧ [titleCmd] ≠ headerCmds0 cexMeta
    ∧ (metaParas cexMeta).map (fun p => (p.runs.map Run.text).flatten)
        ≠ [titleCmd.2.2] := by decide

/-- C6 (amended). Only the first page's header carries the full metadata, and
its texts equal the flow output's metadata paragraph texts; every subsequent
page repeats just the title command. -/
theorem c6_metadata_amended (m : Meta) (raw : List Char) :
    (generatePDFPages m raw).map PDFPage.header
      = headerCmds0 m
          :: List.replicate
              ((paginate codeGeom (splitOnChar '\n' raw)).length - 1) [titleCmd]
    ∧ (headerCmds0 m).map (fun c => c.2.2)
        = (metaParas m).map (fun p => (p.runs.map Run.text).flatten) := by
  constructor
  · unfold generatePDFPages
    cases hr : paginate codeGeom (splitOnChar '\n' raw) with
    | nil => exact absurd hr (paginate_ne_nil _ _)
    | cons p ps =>
      simp only [List.map_cons, List.map_map, List.length_cons,
        Nat.add_sub_cancel]
      congr 1
      clear hr
      induction ps with
      | nil => simp
      | cons q qs ih => simp [ih, List.replicate_succ]
  · simp [headerCmds0, metaParas, titleText]

/-- C7 counterexample: with line height 0 (or non-positive usable height)
pagination does not fail — it still places the line on a page, so there is no
fail-fast configuration error in the code. -/
theorem c7_geometry_cex :
    ¬ Geom.Valid ⟨80, 20, 297, 20, 0⟩
    ∧ (paginate ⟨80, 20, 297, 20, 0⟩ ["x".data]).flatten.length = 1
    ∧ ¬ Geom.Valid ⟨20, 20, 30, 20, 7⟩
    ∧ (paginate ⟨20, 20, 30, 20, 7⟩ ["x".data]).flatten.length = 1 := by decide

/-- C7 (amended). The code performs no geometry validation at all: pagination
is total and places every line for any geometry whatsoever; invalid geometry
can never be reported because the code's geometry is hard-wired to constants
that satisfy the validity conditions. -/
theorem c7_no_geometry_validation :
    (∀ (g : Geom) (ls : List (List Char)),
      (paginate g ls).flatten.length = ls.length)
    ∧ codeGeom.Valid := by
  constructor
  · intro g ls
    conv_rhs => rw [← paginate_lines g ls]
    rw [List.length_map]
  · decide

/-- C8. Pagination determinism: the page structures (positioned lines per
page) are a pure function of the parsed document and the geometry; in
particular they do not depend on the run-specific metadata (company, report
type, generation date), and identical inputs give identical structures. -/
theorem c8_determinism (m₁ m₂ : Meta) (raw : List Char) :
    (generatePDFPages m₁ raw).map PDFPage.lines
      = (generatePDFPages m₂ raw).map PDFPage.lines := by
  unfold generatePDFPages
  cases paginate codeGeom (splitOnChar '\n' raw) with
  | nil => rfl
  | cons p ps => simp

/-- C9. Empty raw text is not an error: exactly one page is produced, its
header is the full metadata block, and its only content draw command carries
empty text (the single empty line is drawn as an empty string). -/
theorem c9_empty_input (m : Meta) (w : List Char → Bool → Int) :
    (generatePDFPages m "".data).length = 1
    ∧ (generatePDFPages m "".data).map
        (fun p => (pageContentCmds w p).map DrawCmd.text) = [[[]]]
    ∧ (generatePDFPages m "".data).map PDFPage.header = [headerCmds0 m] :=
  ⟨rfl, rfl, rfl⟩

/-- C10. Export guards: `downloadPDF` with no generated PDF and `downloadDOCX`
with no report both produce no save action at all (and, the functions being
total, no error). -/
theorem c10_export_guard (company : List Char) (m : Meta) :
    downloadPDF company none = none ∧ downloadDOCX m none = none :=
  ⟨rfl, rfl⟩
